/-
  Verification of `chord_generator/chord.py`.

  The module has two operations:
  * `getFrequency` : note-name string → frequency (12-tone equal temperament,
    A4 = 440 Hz), with `None` on empty/absent input and a `ValueError` when the
    regex `([A-G](?:#|b)?)(\d+)` finds no match at the start of the string;
  * `generateChordsFromFrequencies` : chords (lists of frequencies) +
    optional durations/weights → a mono 16-bit 44100 Hz wave file.

  The embedding below translates the Python faithfully: machine floats become
  real numbers, `re.match` becomes an explicit prefix matcher with the same
  backtracking behaviour, Python truthiness of optional list arguments is
  modelled explicitly, `int()` on floats is truncation toward zero, and
  `struct.pack('h', v)` (Python 2 semantics) truncates its float argument
  toward zero and fails outside the signed 16-bit range.
-/
import Mathlib

namespace ChordGen

/-! ## Note resolver (`_getSemitoneShift`, `getFrequency`) -/

/-- The dict `SEMITONES_FROM_C = {'A':9, 'B':11, 'C':0, 'D':2, 'E':4, 'F':5, 'G':7}`.
Only the keys A–G are ever looked up (the regex guarantees the first character
of the note group is in A–G); other characters would be a `KeyError` in Python
and are unreachable here. -/
def SEMITONES_FROM_C (c : Char) : ℤ :=
  if c = 'A' then 9
  else if c = 'B' then 11
  else if c = 'C' then 0
  else if c = 'D' then 2
  else if c = 'E' then 4
  else if c = 'F' then 5
  else 7

/-- `_getSemitoneShift(note)`: `adj = 1 if '#' in note else -1 if 'b' in note else 0;
return (SEMITONES_FROM_C[note[0]] + adj) % 12`.  The `headD` default is
unreachable: the regex only ever produces a non-empty note group.  Lean's
`Int.emod` agrees with Python's `%` for the positive modulus 12. -/
def _getSemitoneShift (note : List Char) : ℤ :=
  let adj : ℤ := if note.contains '#' then 1 else if note.contains 'b' then -1 else 0
  (SEMITONES_FROM_C (note.headD 'C') + adj) % 12

/-- The character class `[A-G]` of the regex. -/
def isNoteLetter (c : Char) : Bool := decide ('A' ≤ c) && decide (c ≤ 'G')

/-- `re.match('([A-G](?:#|b)?)(\d+)', s)`: anchored at the START of the string
only (Python's `re.match` does not anchor at the end).  Returns the two groups
(note, octave digits) of the leftmost match, with the regex engine's
backtracking: the optional accidental is taken greedily, and given back when no
digit follows it (in which case `\d+` then fails on the accidental character
itself, so the whole match fails). -/
def regexMatch : List Char → Option (List Char × List Char)
  | [] => none
  | c :: rest =>
    if isNoteLetter c then
      match rest with
      | [] => none
      | a :: rest2 =>
        if a == '#' || a == 'b' then
          let ds := rest2.takeWhile Char.isDigit
          if ds.isEmpty then none else some ([c, a], ds)
        else
          let ds := rest.takeWhile Char.isDigit
          if ds.isEmpty then none else some ([c], ds)
    else none

/-- The note-name grammar of the specification, as a whole-string matcher:
Letter ∈ A–G, optional accidental `#`/`b`, then one or more ASCII digits, with
no other characters.  This is the grammar the claims quantify over; the code
itself only ever matches a PREFIX of the input against it. -/
def isGrammar (s : List Char) : Bool :=
  match s with
  | [] => false
  | c :: rest =>
    isNoteLetter c &&
      ((!rest.isEmpty && rest.all Char.isDigit) ||
       (match rest with
        | a :: ds => (a == '#' || a == 'b') && !ds.isEmpty && ds.all Char.isDigit
        | [] => false))

/-- Accidental adjustment named in the claims: +1 for `#`, −1 for `b`, 0 for none. -/
def accAdj (acc : List Char) : ℤ :=
  if acc = ['#'] then 1 else if acc = ['b'] then -1 else 0

/-- `int(octave)` on the digit group (`\d` is ASCII `[0-9]` here): usual
base-10 value, `'0'.toNat = 48`. -/
def digitsToNat (ds : List Char) : ℕ :=
  ds.foldl (fun n c => 10 * n + (c.toNat - 48)) 0

/-- Result of `getFrequency`: `missing` models the `return None` branch (which
also logs a warning), `invalid` models the raised `ValueError`, and `freq f`
models a successful return of the float `f`. -/
inductive FreqResult where
  | missing : FreqResult
  | invalid : FreqResult
  | freq : ℝ → FreqResult

/-- `getFrequency(noteName)`.  The argument is `Option String` so that an
absent (`None`) argument can be distinguished from an empty string; Python's
`if not noteName` is true exactly on those two inputs. -/
noncomputable def getFrequency (noteName : Option String) : FreqResult :=
  match noteName with
  | none => .missing
  | some s =>
    if s.data.isEmpty then .missing
    else
      match regexMatch s.data with
      | none => .invalid
      | some (note, octaveDigits) =>
        let octave : ℕ := digitsToNat octaveDigits
        let key_number : ℝ := 4 + ((_getSemitoneShift note : ℤ) : ℝ) + ((octave : ℝ) - 1) * 12
        .freq ((2 : ℝ) ^ ((key_number - 49) / 12) * 440)

/-- The integer key number computed inside `getFrequency` for a string whose
head matches the regex (the computation is integer-valued; the Python code
carries it in floats). -/
def keyNumberOf (s : String) : Option ℤ :=
  (regexMatch s.data).map
    (fun p => 4 + _getSemitoneShift p.1 + ((digitsToNat p.2 : ℤ) - 1) * 12)

/-- The frequency `getFrequency` returns for key number `k`:
`math.pow(2, (key_number-49)/12) * 440.0`. -/
noncomputable def freqOfKey (k : ℤ) : ℝ := (2 : ℝ) ^ (((k : ℝ) - 49) / 12) * 440

lemma regexMatch_ne_nil {s : List Char} {p} (h : regexMatch s = some p) : s ≠ [] := by
  intro hnil; subst hnil; simp [regexMatch] at h

lemma getFrequency_eq_freqOfKey {s : String} {k : ℤ} (h : keyNumberOf s = some k) :
    getFrequency (some s) = .freq (freqOfKey k) := by
  unfold keyNumberOf at h
  cases hm : regexMatch s.data with
  | none => rw [hm] at h; simp at h
  | some p =>
    rw [hm] at h
    simp only [Option.map_some', Option.some.injEq] at h
    have hne : s.data.isEmpty = false := by
      simpa [List.isEmpty_iff] using regexMatch_ne_nil hm
    obtain ⟨note, ds⟩ := p
    simp only [getFrequency, hne, Bool.false_eq_true, if_false, hm]
    simp only [FreqResult.freq.injEq, freqOfKey]
    rw [← h]
    push_cast
    ring_nf

lemma digit_not_accidental {c : Char} (h : c.isDigit = true) :
    (c == '#' || c == 'b') = false := by
  have h1 : c ≠ '#' := by rintro rfl; exact absurd h (by decide)
  have h2 : c ≠ 'b' := by rintro rfl; exact absurd h (by decide)
  simp [h1, h2]

lemma noteLetter_not_sharp_flat {L : Char} (hL : isNoteLetter L = true) :
    L ≠ '#' ∧ L ≠ 'b' := by
  constructor <;> rintro rfl <;> exact absurd hL (by decide)

/-- On the note group `L :: acc` the shift is the base table value adjusted by
the accidental, mod 12. -/
lemma semitoneShift_full (L : Char) (acc : List Char) (hL : isNoteLetter L = true)
    (hacc : acc = [] ∨ acc = ['#'] ∨ acc = ['b']) :
    _getSemitoneShift (L :: acc) = (SEMITONES_FROM_C L + accAdj acc) % 12 := by
  obtain ⟨h1, h2⟩ := noteLetter_not_sharp_flat hL
  have e1 : ('#' == L) = false := by simp [Ne.symm h1]
  have e2 : ('b' == L) = false := by simp [Ne.symm h2]
  rcases hacc with rfl | rfl | rfl <;>
    simp [_getSemitoneShift, accAdj, List.contains, List.elem, e1, e2]

/-- The regex matches a full-grammar string entirely, splitting it into the
note group and the digit group. -/
lemma regexMatch_full (L : Char) (acc ds : List Char) (hL : isNoteLetter L = true)
    (hacc : acc = [] ∨ acc = ['#'] ∨ acc = ['b'])
    (hne : ds ≠ []) (hds : ∀ c ∈ ds, c.isDigit = true) :
    regexMatch (L :: (acc ++ ds)) = some (L :: acc, ds) := by
  have htake : ds.takeWhile Char.isDigit = ds := List.takeWhile_eq_self_iff.mpr hds
  have hie : ds.isEmpty = false := by simpa [List.isEmpty_iff] using hne
  rcases hacc with rfl | rfl | rfl
  · obtain ⟨d, tl, rfl⟩ : ∃ d tl, ds = d :: tl := by
      cases ds with
      | nil => exact absurd rfl hne
      | cons d tl => exact ⟨d, tl, rfl⟩
    have hd : (d == '#' || d == 'b') = false :=
      digit_not_accidental (hds d (by simp))
    simp [regexMatch, hL, hd, htake, hie]
  · simp [regexMatch, hL, htake, hie]
  · simp [regexMatch, hL, htake, hie]

lemma keyNumberOf_full (L : Char) (acc ds : List Char) (hL : isNoteLetter L = true)
    (hacc : acc = [] ∨ acc = ['#'] ∨ acc = ['b'])
    (hne : ds ≠ []) (hds : ∀ c ∈ ds, c.isDigit = true) :
    keyNumberOf (String.mk (L :: (acc ++ ds)))
      = some (4 + (SEMITONES_FROM_C L + accAdj acc) % 12
          + ((digitsToNat ds : ℤ) - 1) * 12) := by
  unfold keyNumberOf
  rw [show (String.mk (L :: (acc ++ ds))).data = L :: (acc ++ ds) from rfl]
  rw [regexMatch_full L acc ds hL hacc hne hds]
  simp [semitoneShift_full L acc hL hacc]

lemma getFrequency_A4 : getFrequency (some "A4") = .freq 440 := by
  have h : keyNumberOf "A4" = some 49 := by decide
  rw [getFrequency_eq_freqOfKey h]
  norm_num [freqOfKey, Real.rpow_zero]

/-- C1: for every note-name string that matches the grammar
Letter [Accidental] Digits, `getFrequency` returns
`440 * 2 ^ ((K − 49)/12)` with `K = 4 + ((base(L) + adj(acc)) mod 12) + (octave − 1)·12`
(base table C=0, D=2, E=4, F=5, G=7, A=9, B=11; adj = +1 for `#`, −1 for `b`,
0 for none); the result is a positive real, and input "A4" gives exactly 440. -/
theorem C1_valid_note_frequency (L : Char) (acc ds : List Char)
    (hL : isNoteLetter L = true) (hacc : acc = [] ∨ acc = ['#'] ∨ acc = ['b'])
    (hne : ds ≠ []) (hds : ∀ c ∈ ds, c.isDigit = true) :
    getFrequency (some (String.mk (L :: (acc ++ ds))))
      = .freq (440 * (2:ℝ) ^ ((((4 + (SEMITONES_FROM_C L + accAdj acc) % 12
          + ((digitsToNat ds : ℤ) - 1) * 12 : ℤ) : ℝ) - 49) / 12))
    ∧ (0:ℝ) < 440 * (2:ℝ) ^ ((((4 + (SEMITONES_FROM_C L + accAdj acc) % 12
          + ((digitsToNat ds : ℤ) - 1) * 12 : ℤ) : ℝ) - 49) / 12)
    ∧ getFrequency (some "A4") = .freq 440 := by
  refine ⟨?_, by positivity, getFrequency_A4⟩
  rw [getFrequency_eq_freqOfKey (keyNumberOf_full L acc ds hL hacc hne hds)]
  rw [freqOfKey, mul_comm]

theorem C1_witness :
    getFrequency (some (String.mk ('A' :: ([] ++ ['4']))))
      = .freq (440 * (2:ℝ) ^ ((((4 + (SEMITONES_FROM_C 'A' + accAdj []) % 12
          + ((digitsToNat ['4'] : ℤ) - 1) * 12 : ℤ) : ℝ) - 49) / 12))
    ∧ (0:ℝ) < 440 * (2:ℝ) ^ ((((4 + (SEMITONES_FROM_C 'A' + accAdj []) % 12
          + ((digitsToNat ['4'] : ℤ) - 1) * 12 : ℤ) : ℝ) - 49) / 12)
    ∧ getFrequency (some "A4") = .freq 440 :=
  C1_valid_note_frequency 'A' [] ['4'] (by decide) (Or.inl rfl) (by decide)
    (by decide)

/-- C7: empty or absent input makes `getFrequency` yield no result (the code
logs a warning and returns `None`, modelled by `FreqResult.missing`) rather
than raising an exception. -/
theorem C7_missing_input (o : Option String) (h : o = none ∨ o = some "") :
    getFrequency o = .missing := by
  rcases h with rfl | rfl <;> rfl

theorem C7_witness : getFrequency none = FreqResult.missing :=
  C7_missing_input none (Or.inl rfl)

/-- Whenever the regex finds a match, the matched text (note group followed by
digit group) is a prefix of the input and is itself a full grammar match. -/
lemma regexMatch_grammar_head {s note ds : List Char}
    (h : regexMatch s = some (note, ds)) :
    (note ++ ds) <+: s ∧ isGrammar (note ++ ds) = true := by
  cases s with
  | nil => simp [regexMatch] at h
  | cons c rest =>
    cases rest with
    | nil =>
      by_cases hc : isNoteLetter c = true <;> simp [regexMatch, hc] at h
    | cons a rest2 =>
      by_cases hc : isNoteLetter c = true
      · by_cases ha : (a == '#' || a == 'b') = true
        · by_cases he : (rest2.takeWhile Char.isDigit).isEmpty = true
          · simp [regexMatch, hc, ha, he] at h
          · simp only [regexMatch, hc, ha, he, if_true, if_false,
              Bool.false_eq_true, Option.some.injEq, Prod.mk.injEq] at h
            obtain ⟨hnote, hds⟩ := h
            subst hnote; subst hds
            refine ⟨⟨rest2.dropWhile Char.isDigit, by
              simp [List.takeWhile_append_dropWhile]⟩, ?_⟩
            have hall : (rest2.takeWhile Char.isDigit).all Char.isDigit = true :=
              List.all_eq_true.mpr (fun x hx => List.mem_takeWhile_imp hx)
            have hnem : (rest2.takeWhile Char.isDigit).isEmpty = false := by
              simpa using he
            simp [isGrammar, hc, ha, hall, hnem]
        · by_cases he : (((a :: rest2)).takeWhile Char.isDigit).isEmpty = true
          · simp [regexMatch, hc, ha, he] at h
          · simp only [regexMatch, hc, ha, he, if_true, if_false,
              Bool.false_eq_true, Option.some.injEq, Prod.mk.injEq] at h
            obtain ⟨hnote, hds⟩ := h
            subst hnote; subst hds
            refine ⟨⟨(a :: rest2).dropWhile Char.isDigit, by
              simp [List.takeWhile_append_dropWhile]⟩, ?_⟩
            have hall : ((a :: rest2).takeWhile Char.isDigit).all Char.isDigit = true :=
              List.all_eq_true.mpr (fun x hx => List.mem_takeWhile_imp hx)
            have hnem : ((a :: rest2).takeWhile Char.isDigit).isEmpty = false := by
              simpa using he
            simp [isGrammar, hc, hall, hnem]
      · simp [regexMatch, hc] at h

/-- C5 fails as stated: `re.match` anchors only at the START of the string, so
an input that begins with a grammar match but has trailing characters — here
"A4x" — does not match the full grammar yet is accepted: `getFrequency`
returns the frequency of A4 instead of raising `InvalidFormat`. -/
theorem C5_counterexample :
    isGrammar ("A4x".data) = false ∧ "A4x" ≠ "" ∧
      getFrequency (some "A4x") ≠ FreqResult.invalid := by
  refine ⟨by decide, by decide, ?_⟩
  have h : keyNumberOf "A4x" = some 49 := by decide
  rw [getFrequency_eq_freqOfKey h]
  intro hcon
  exact FreqResult.noConfusion hcon

/-- C5 (amended): `getFrequency` raises `InvalidFormat` exactly on those
non-empty strings NO prefix of which matches the grammar Letter [Accidental]
Digits; in particular "H4" raises it.  (Strings with a matching proper prefix,
such as "A4x", are accepted instead — forced by the counterexample.) -/
theorem C5_invalid_format (s : String) (hne : s ≠ "")
    (h : ∀ p ∈ s.data.inits, isGrammar p = false) :
    getFrequency (some s) = FreqResult.invalid
    ∧ getFrequency (some "H4") = FreqResult.invalid := by
  refine ⟨?_, rfl⟩
  have hne' : s.data ≠ [] := by
    intro hd
    exact hne (String.ext (by rw [hd]))
  cases hm : regexMatch s.data with
  | none =>
    simp only [getFrequency, hm]
    rw [if_neg (by simpa [List.isEmpty_iff] using hne')]
  | some p =>
    obtain ⟨note, ds⟩ := p
    obtain ⟨hp, hg⟩ := regexMatch_grammar_head hm
    rw [h _ ((List.mem_inits _ _).mpr hp)] at hg
    exact absurd hg (by simp)

theorem C5_witness :
    getFrequency (some "H4") = FreqResult.invalid
    ∧ getFrequency (some "H4") = FreqResult.invalid :=
  C5_invalid_format "H4" (by decide) (by decide)

/-- C8: raising a note by one semitone (key number +1) multiplies the
frequency returned by `getFrequency` by `2^(1/12)`; "A5" is twice "A4", and
"C#4" is "C4" times `2^(1/12)`. -/
theorem C8_semitone_ratio :
    (∀ (s1 s2 : String) (k : ℤ) (f1 : ℝ),
        keyNumberOf s1 = some k → keyNumberOf s2 = some (k + 1) →
        getFrequency (some s1) = .freq f1 →
        getFrequency (some s2) = .freq (f1 * (2:ℝ) ^ ((1:ℝ)/12)))
    ∧ (∃ f4 : ℝ, getFrequency (some "A4") = .freq f4
        ∧ getFrequency (some "A5") = .freq (2 * f4))
    ∧ (∃ fc : ℝ, getFrequency (some "C4") = .freq fc
        ∧ getFrequency (some "C#4") = .freq (fc * (2:ℝ) ^ ((1:ℝ)/12))) := by
  have key : ∀ k : ℤ, freqOfKey (k + 1) = freqOfKey k * (2:ℝ) ^ ((1:ℝ)/12) := by
    intro k
    unfold freqOfKey
    have h : (((k + 1 : ℤ) : ℝ) - 49) / 12 = ((k:ℝ) - 49) / 12 + 1/12 := by
      push_cast; ring
    rw [h, Real.rpow_add (by norm_num : (0:ℝ) < 2)]
    ring
  refine ⟨?_, ?_, ?_⟩
  · intro s1 s2 k f1 h1 h2 hf1
    rw [getFrequency_eq_freqOfKey h1] at hf1
    have hv : freqOfKey k = f1 := by
      simpa [FreqResult.freq.injEq] using hf1
    rw [getFrequency_eq_freqOfKey h2, key k, hv]
  · refine ⟨440, getFrequency_A4, ?_⟩
    have h5 : keyNumberOf "A5" = some 61 := by decide
    rw [getFrequency_eq_freqOfKey h5]
    have h61 : freqOfKey 61 = 2 * 440 := by
      have h12 : (((61:ℤ):ℝ) - 49) / 12 = 1 := by norm_num
      rw [freqOfKey, h12, Real.rpow_one]
    rw [h61]
  · have h4 : keyNumberOf "C4" = some 40 := by decide
    have h41 : keyNumberOf "C#4" = some 41 := by decide
    exact ⟨freqOfKey 40, getFrequency_eq_freqOfKey h4, by
      rw [getFrequency_eq_freqOfKey h41, show (41:ℤ) = 40 + 1 from rfl, key 40]⟩

theorem C8_witness :
    getFrequency (some "A#4") = FreqResult.freq (440 * (2:ℝ) ^ ((1:ℝ)/12)) :=
  C8_semitone_ratio.1 "A4" "A#4" 49 440 (by decide) (by decide) getFrequency_A4

/-! ## Chord waveform synthesizer (`generateChordsFromFrequencies`) -/

/-- `sampleRate = 44100.0`. -/
def sampleRate : ℝ := 44100

/-- `amplitude = 8000.0`. -/
def amplitude : ℝ := 8000

/-- Python truthiness of an optional list argument: `None` and the empty list
are both falsy.  The code tests `if durations and ...`, `weights and ...`,
`durations or ...`, so an explicitly passed empty list behaves exactly like an
omitted argument. -/
def listTruthy {α : Type} (o : Option (List α)) : Bool :=
  match o with
  | some l => !l.isEmpty
  | none => false

/-- Python's `int()` on a float: truncation toward zero. -/
noncomputable def truncInt (x : ℝ) : ℤ := if 0 ≤ x then ⌊x⌋ else ⌈x⌉

/-- `sec_durations = durations or [1.0]*len(chord_frequencies)`. -/
def secDurationsOf (chords : List (List ℝ)) (durations : Option (List ℝ)) :
    List ℝ :=
  if listTruthy durations then durations.getD [] else List.replicate chords.length 1

/-- `sample_durations = [int(sampleRate*duration) for duration in sec_durations]`. -/
noncomputable def sampleDurationsOf (chords : List (List ℝ))
    (durations : Option (List ℝ)) : List ℤ :=
  (secDurationsOf chords durations).map (fun d => truncInt (sampleRate * d))

/-- The per-chord weight entries the loop reads: `weights[i]` when `weights`
is truthy (its length has been validated), otherwise a default (falsy) entry
for every chord. -/
def weightEntriesOf (chords : List (List ℝ))
    (weights : Option (List (Option (List ℝ)))) : List (Option (List ℝ)) :=
  if listTruthy weights then weights.getD []
  else List.replicate chords.length none

/-- `[1.0/len(fs)] * len(fs)`; `none` models the `ZeroDivisionError` raised by
`1.0/len(fs)` when the chord has no notes. -/
noncomputable def pyUniform (fs : List ℝ) : Option (List ℝ) :=
  if fs.isEmpty then none
  else some (List.replicate fs.length ((1 : ℝ) / (fs.length : ℝ)))

/-- One step of the loop body
`weights[i] if (weights and weights[i]) else [1.0/len(fs)]*len(fs)`:
a falsy entry (`None` or the empty list) falls back to uniform weights. -/
noncomputable def entryWeights (fs : List ℝ) (e : Option (List ℝ)) :
    Option (List ℝ) :=
  match e with
  | some w => if w.isEmpty then pyUniform fs else some w
  | none => pyUniform fs

/-- The `chord_weights` list built by the first loop (`none` propagates the
`ZeroDivisionError`).  The `_ :: _, []` case is unreachable: the entries list
always has one entry per chord by construction. -/
noncomputable def chordWeightsOf :
    List (List ℝ) → List (Option (List ℝ)) → Option (List (List ℝ))
  | [], _ => some []
  | _ :: _, [] => some []
  | fs :: cr, e :: er =>
    match entryWeights fs e, chordWeightsOf cr er with
    | some w, some ws => some (w :: ws)
    | _, _ => none

/-- The inner loop body: `sample = 0`, then
`sample += coefficient * math.sin(2*math.pi*freq*(x/sampleRate))` for each
`(freq, coefficient) in zip(freqs, weighting)` (`zip` stops at the shorter
list). -/
noncomputable def chordSample (freqs weighting : List ℝ) (x : ℕ) : ℝ :=
  (freqs.zip weighting).foldl
    (fun sample p => sample + p.2 * Real.sin (2 * Real.pi * p.1 * ((x : ℝ) / sampleRate)))
    0

/-- The `sine_wave` list: for each `(freqs, sample_size, weighting)` in
`zip(chord_frequencies, sample_durations, chord_weights)`, append the samples
for `x in range(sample_size)` (`range` of a negative int is empty, hence
`Int.toNat`). -/
noncomputable def sineWave :
    List (List ℝ) → List ℤ → List (List ℝ) → List ℝ
  | fs :: cr, sz :: sr, w :: wr =>
    (List.range sz.toNat).map (fun x => chordSample fs w x) ++ sineWave cr sr wr
  | _, _, _ => []

/-- `struct.pack('h', v)` under Python 2 semantics: the float argument is
converted with `int()` (truncation toward zero) and must lie in the signed
16-bit range, otherwise `struct.error` is raised (`none`). -/
noncomputable def packH (v : ℝ) : Option ℤ :=
  if -32768 ≤ truncInt v ∧ truncInt v ≤ 32767 then some (truncInt v) else none

/-- The quantization loop: each sample is written as
`struct.pack('h', frequency*amplitude/2)`; `none` models a `struct.error`
aborting the write. -/
noncomputable def packFrames : List ℝ → Option (List ℤ)
  | [] => some []
  | v :: vs =>
    match packH (v * amplitude / 2), packFrames vs with
    | some k, some ks => some (k :: ks)
    | _, _ => none

/-- `filename or 'my_chord.wav'` (the empty string is falsy). -/
def pyFilename (o : Option String) : String :=
  match o with
  | some s => if s = "" then "my_chord.wav" else s
  | none => "my_chord.wav"

/-- The two `ValueError`s of the validation block, the `ZeroDivisionError`
from uniform weights of an empty chord, and a `struct.error` during the
write loop. -/
inductive GenError where
  | durLengthMismatch : GenError
  | wtLengthMismatch : GenError
  | zeroDivision : GenError
  | packError : GenError
deriving DecidableEq

/-- Result of `generateChordsFromFrequencies`: either an exception, or the
written wave file, with the `setparams` fields
(nchannels, sampwidth, framerate, nframes) and the list of written frames.
`error` results carry no file: the validation errors are raised before
`wave.open` is called. -/
inductive GenResult where
  | error : GenError → GenResult
  | ok : String → ℕ → ℕ → ℝ → ℤ → List ℤ → GenResult

/-- `generateChordsFromFrequencies(chord_frequencies, durations, filename, weights)`.
Validation happens first (with Python truthiness: an empty `durations` or
`weights` list skips its check); then `chord_weights` is built (possible
`ZeroDivisionError`), the sine wave is computed, and the file is written with
header `(1, 2, sampleRate, sum(sample_durations), 'NONE', 'not compressed')`
followed by one packed 16-bit frame per sample. -/
noncomputable def generateChordsFromFrequencies
    (chord_frequencies : List (List ℝ)) (durations : Option (List ℝ))
    (filename : Option String) (weights : Option (List (Option (List ℝ)))) :
    GenResult :=
  if listTruthy durations
      && ((durations.getD []).length != chord_frequencies.length) then
    .error .durLengthMismatch
  else if listTruthy weights
      && ((weights.getD []).length != chord_frequencies.length) then
    .error .wtLengthMismatch
  else
    match chordWeightsOf chord_frequencies (weightEntriesOf chord_frequencies weights) with
    | none => .error .zeroDivision
    | some chord_weights =>
      match packFrames (sineWave chord_frequencies
          (sampleDurationsOf chord_frequencies durations) chord_weights) with
      | none => .error .packError
      | some frames =>
        .ok (pyFilename filename) 1 2 sampleRate
          (sampleDurationsOf chord_frequencies durations).sum frames

/-! ### Specification-side synthesis formulas (the claims' wording) -/

/-- The claims' per-sample formula: Σ over note/weight pairs of
`weight * sin(2π · freq · x / 44100)`. -/
noncomputable def specSample (fs w : List ℝ) (x : ℕ) : ℝ :=
  ((fs.zip w).map
    (fun p => p.2 * Real.sin (2 * Real.pi * p.1 * ((x : ℝ) / 44100)))).sum

/-- The claims' per-chord sample sequence: `specSample` at each
`x ∈ [0, count)`. -/
noncomputable def specWave (fs w : List ℝ) (count : ℕ) : List ℝ :=
  (List.range count).map (specSample fs w)

/-! ### Helper lemmas about the synthesizer -/

lemma truncInt_intCast (z : ℤ) : truncInt ((z : ℝ)) = z := by
  unfold truncInt; split <;> simp

lemma foldl_add_sum {α : Type} (g : α → ℝ) :
    ∀ (l : List α) (a : ℝ), l.foldl (fun s p => s + g p) a = a + (l.map g).sum
  | [], a => by simp
  | x :: xs, a => by
    simp only [List.foldl_cons, List.map_cons, List.sum_cons, foldl_add_sum g xs]
    ring

/-- The accumulating loop computes exactly the claims' Σ formula. -/
lemma chordSample_eq_specSample (fs gw : List ℝ) (x : ℕ) :
    chordSample fs gw x = specSample fs gw x := by
  unfold chordSample specSample
  rw [foldl_add_sum]
  simp [sampleRate]

/-- The synthesis loop produces the concatenation, in chord order, of the
per-chord sample sequences (all three zipped lists truncate together). -/
lemma sineWave_eq_join :
    ∀ (chords : List (List ℝ)) (szs : List ℤ) (cw : List (List ℝ)),
      sineWave chords szs cw
        = List.flatten (List.zipWith (fun fw sz => specWave fw.1 fw.2 sz.toNat)
            (chords.zip cw) szs)
  | [], szs, cw => by cases szs <;> cases cw <;> simp [sineWave]
  | _ :: _, [], cw => by cases cw <;> simp [sineWave]
  | _ :: _, _ :: _, [] => by simp [sineWave]
  | fs :: cr, sz :: sr, gw :: wr => by
    have ih := sineWave_eq_join cr sr wr
    simp [sineWave, ih, specWave, chordSample_eq_specSample]

/-- When every chord is non-empty and every present weight entry is non-empty,
the weight loop succeeds and yields the given entry, or uniform `1/n` weights
where the entry is absent. -/
lemma chordWeightsOf_forall₂ :
    ∀ {chords : List (List ℝ)} {entries : List (Option (List ℝ))},
      List.Forall₂ (fun fs e => fs ≠ [] ∧ ∀ gw, e = some gw → gw ≠ []) chords entries →
      chordWeightsOf chords entries
        = some (List.zipWith
            (fun fs e => e.getD (List.replicate fs.length ((1:ℝ) / (fs.length : ℝ))))
            chords entries)
  | _, _, List.Forall₂.nil => rfl
  | fs :: cr, e :: er, List.Forall₂.cons hfe htl => by
    obtain ⟨hfs, hw⟩ := hfe
    have ih := chordWeightsOf_forall₂ htl
    have he : entryWeights fs e
        = some (e.getD (List.replicate fs.length ((1:ℝ) / (fs.length : ℝ)))) := by
      cases e with
      | none =>
        have hie : fs.isEmpty = false := by simpa [List.isEmpty_iff] using hfs
        simp [entryWeights, pyUniform, hie]
      | some gw =>
        have hie : gw.isEmpty = false := by
          simpa [List.isEmpty_iff] using hw gw rfl
        simp [entryWeights, hie]
    simp [chordWeightsOf, he, ih]

/-- Successful quantization writes exactly the truncated scaled samples, and
every written frame is in the signed 16-bit range. -/
lemma packFrames_sound :
    ∀ {vs : List ℝ} {ks : List ℤ}, packFrames vs = some ks →
      ks = vs.map (fun v => truncInt (v * amplitude / 2))
        ∧ ∀ k ∈ ks, -32768 ≤ k ∧ k ≤ 32767
  | [], ks, h => by
    simp only [packFrames, Option.some.injEq] at h
    subst h
    simp
  | v :: vs, ks, h => by
    unfold packFrames at h
    cases hp : packH (v * amplitude / 2) with
    | none => rw [hp] at h; simp at h
    | some k =>
      rw [hp] at h
      cases hrest : packFrames vs with
      | none => rw [hrest] at h; simp at h
      | some ks' =>
        rw [hrest] at h
        simp only [Option.some.injEq] at h
        subst h
        obtain ⟨ih1, ih2⟩ := packFrames_sound hrest
        unfold packH at hp
        by_cases hb : -32768 ≤ truncInt (v * amplitude / 2)
            ∧ truncInt (v * amplitude / 2) ≤ 32767
        · rw [if_pos hb] at hp
          simp only [Option.some.injEq] at hp
          subst hp
          refine ⟨by rw [List.map_cons, ih1], ?_⟩
          intro k hk
          rcases List.mem_cons.mp hk with rfl | hk'
          · exact hb
          · exact ih2 k hk'
        · rw [if_neg hb] at hp
          exact absurd hp (by simp)

lemma chordSample_zero (w : ℝ) (x : ℕ) : chordSample [0] [w] x = 0 := by
  simp [chordSample]

lemma chordSample_zero2 (f2 w : ℝ) (x : ℕ) : chordSample [0, f2] [w] x = 0 := by
  simp [chordSample]

lemma map_range_eq_replicate_zero (n : ℕ) (g : ℕ → ℝ) (h : ∀ x, g x = 0) :
    (List.range n).map g = List.replicate n 0 := by
  refine List.eq_replicate_iff.mpr ⟨by simp, ?_⟩
  intro b hb
  obtain ⟨x, _, rfl⟩ := List.mem_map.mp hb
  exact h x

lemma packH_zero : packH (0:ℝ) = some 0 := by
  unfold packH
  rw [show ((0:ℝ)) = ((0:ℤ) : ℝ) by norm_num, truncInt_intCast]
  norm_num

lemma packFrames_replicate_zero (n : ℕ) :
    packFrames (List.replicate n (0:ℝ)) = some (List.replicate n 0) := by
  induction n with
  | zero => rfl
  | succ m ih => simp [List.replicate_succ, packFrames, packH_zero, ih]

/-- Success-path evaluation of `generateChordsFromFrequencies`. -/
lemma generate_ok {chords : List (List ℝ)} {d : Option (List ℝ)} {f : Option String}
    {w : Option (List (Option (List ℝ)))} {cw : List (List ℝ)} {frames : List ℤ}
    (h1 : (listTruthy d && ((d.getD []).length != chords.length)) = false)
    (h2 : (listTruthy w && ((w.getD []).length != chords.length)) = false)
    (h3 : chordWeightsOf chords (weightEntriesOf chords w) = some cw)
    (h4 : packFrames (sineWave chords (sampleDurationsOf chords d) cw) = some frames) :
    generateChordsFromFrequencies chords d f w
      = .ok (pyFilename f) 1 2 sampleRate (sampleDurationsOf chords d).sum frames := by
  unfold generateChordsFromFrequencies
  simp only [h1, h2, h3, h4, Bool.false_eq_true, if_false]

lemma truncInt_sampleRate : truncInt sampleRate = 44100 := by
  rw [show sampleRate = ((44100:ℤ) : ℝ) by norm_num [sampleRate], truncInt_intCast]

lemma truncInt_sampleRate2 : truncInt (sampleRate * 2) = 88200 := by
  rw [show sampleRate * (2:ℝ) = ((88200:ℤ) : ℝ) by norm_num [sampleRate], truncInt_intCast]

lemma truncInt_two_over : truncInt (sampleRate * (2 / 44100)) = 2 := by
  rw [show sampleRate * ((2:ℝ) / 44100) = ((2:ℤ) : ℝ) by norm_num [sampleRate],
    truncInt_intCast]

lemma sampleDur_two_over (chords : List (List ℝ)) :
    sampleDurationsOf chords (some [2 / 44100]) = [2] := by
  simp [sampleDurationsOf, secDurationsOf, listTruthy, truncInt_two_over]

lemma chordSample_single (fr w : ℝ) (x : ℕ) :
    chordSample [fr] [w] x
      = w * Real.sin (2 * Real.pi * fr * ((x : ℝ) / sampleRate)) := by
  simp [chordSample]

/-- Evaluation of the one-chord zero-frequency run used by the C4
counterexample: `durations=[]` is falsy, so the duration defaults to 1 s. -/
lemma genC4eval :
    generateChordsFromFrequencies [[0]] (some []) none none
      = .ok "my_chord.wav" 1 2 sampleRate 44100 (List.replicate 44100 0) := by
  have hsd : sampleDurationsOf [[(0:ℝ)]] (some []) = [44100] := by
    simp [sampleDurationsOf, secDurationsOf, listTruthy, truncInt_sampleRate]
  have hcw : chordWeightsOf [[(0:ℝ)]] (weightEntriesOf [[(0:ℝ)]] none)
      = some [[1]] := by
    simp [weightEntriesOf, listTruthy, chordWeightsOf, entryWeights, pyUniform]
  have hsw : sineWave [[(0:ℝ)]] [44100] [[1]] = List.replicate 44100 (0:ℝ) := by
    have h1 : sineWave [[(0:ℝ)]] [44100] [[1]]
        = (List.range ((44100:ℤ)).toNat).map (fun x => chordSample [0] [1] x) := by
      simp [sineWave]
    rw [h1, map_range_eq_replicate_zero _ _ (chordSample_zero 1)]
    rfl
  have h4 : packFrames (sineWave [[(0:ℝ)]] (sampleDurationsOf [[(0:ℝ)]] (some [])) [[1]])
      = some (List.replicate 44100 0) := by
    rw [hsd, hsw]
    exact packFrames_replicate_zero 44100
  rw [generate_ok (by simp [listTruthy]) (by simp [listTruthy]) hcw h4, hsd]
  rfl

/-- Evaluation of the two-chord zero-frequency run with durations `[1, 2]`
used by C6. -/
lemma genC6eval :
    generateChordsFromFrequencies [[0], [0]] (some [1, 2]) none none
      = .ok "my_chord.wav" 1 2 sampleRate 132300 (List.replicate 132300 0) := by
  have hsd : sampleDurationsOf [[(0:ℝ)], [0]] (some [1, 2]) = [44100, 88200] := by
    simp [sampleDurationsOf, secDurationsOf, listTruthy, truncInt_sampleRate,
      truncInt_sampleRate2]
  have hcw : chordWeightsOf [[(0:ℝ)], [0]] (weightEntriesOf [[(0:ℝ)], [0]] none)
      = some [[1], [1]] := by
    simp [weightEntriesOf, listTruthy, chordWeightsOf, entryWeights, pyUniform]
  have hsw : sineWave [[(0:ℝ)], [0]] [44100, 88200] [[1], [1]]
      = List.replicate 132300 (0:ℝ) := by
    have h1 : sineWave [[(0:ℝ)], [0]] [44100, 88200] [[1], [1]]
        = (List.range ((44100:ℤ)).toNat).map (fun x => chordSample [0] [1] x)
          ++ (List.range ((88200:ℤ)).toNat).map (fun x => chordSample [0] [1] x) := by
      simp [sineWave]
    rw [h1, map_range_eq_replicate_zero _ _ (chordSample_zero 1),
      map_range_eq_replicate_zero _ _ (chordSample_zero 1)]
    rw [show ((44100:ℤ)).toNat = 44100 from rfl,
      show ((88200:ℤ)).toNat = 88200 from rfl]
    rw [← List.replicate_add]
  have h4 : packFrames (sineWave [[(0:ℝ)], [0]]
        (sampleDurationsOf [[(0:ℝ)], [0]] (some [1, 2])) [[1], [1]])
      = some (List.replicate 132300 0) := by
    rw [hsd, hsw]
    exact packFrames_replicate_zero 132300
  rw [generate_ok (by simp [listTruthy]) (by simp [listTruthy]) hcw h4, hsd]
  rfl

lemma sin_pi_half_arg :
    Real.sin (2 * Real.pi * 11025 * (((1:ℕ) : ℝ) / sampleRate)) = 1 := by
  have harg : 2 * Real.pi * 11025 * (((1:ℕ) : ℝ) / sampleRate) = Real.pi / 2 := by
    push_cast
    field_simp [sampleRate]
    ring
  rw [harg, Real.sin_pi_div_two]

lemma chordSampleC3_0 : chordSample [(11025:ℝ)] [0.000675] 0 = 0 := by
  simp [chordSample]

lemma chordSampleC3_1 : chordSample [(11025:ℝ)] [0.000675] 1 = 0.000675 := by
  rw [chordSample_single, sin_pi_half_arg, mul_one]

lemma sineWaveC3 : sineWave [[(11025:ℝ)]] [2] [[0.000675]] = [0, 0.000675] := by
  have h : sineWave [[(11025:ℝ)]] [2] [[0.000675]]
      = (List.range ((2:ℤ)).toNat).map (fun x => chordSample [11025] [0.000675] x) := by
    simp [sineWave]
  rw [h, show ((2:ℤ)).toNat = 2 from rfl, show List.range 2 = [0, 1] from rfl]
  simp [chordSampleC3_0, chordSampleC3_1]

lemma packH_27 : packH ((0.000675:ℝ) * amplitude / 2) = some 2 := by
  have h : (0.000675:ℝ) * amplitude / 2 = 2.7 := by norm_num [amplitude]
  rw [h]
  unfold packH truncInt
  rw [if_pos (by norm_num : (0:ℝ) ≤ 2.7)]
  rw [show ⌊(2.7:ℝ)⌋ = 2 from Int.floor_eq_iff.mpr (by norm_num)]
  norm_num

lemma packFramesC3 : packFrames [(0:ℝ), 0.000675] = some [0, 2] := by
  simp [packFrames, packH_zero, packH_27]

/-- Evaluation of the run whose second sample has scaled value 2.7: the chord
is the single frequency 11025 Hz (a quarter of the sample rate, so sample 1
sits at the sine's peak), the weight is 0.000675, and the duration gives
exactly two samples. -/
lemma genC3eval :
    generateChordsFromFrequencies [[11025]] (some [2 / 44100]) none
      (some [some [0.000675]])
      = .ok "my_chord.wav" 1 2 sampleRate 2 [0, 2] := by
  have hcw : chordWeightsOf [[(11025:ℝ)]]
      (weightEntriesOf [[(11025:ℝ)]] (some [some [0.000675]]))
      = some [[0.000675]] := by
    simp [weightEntriesOf, listTruthy, chordWeightsOf, entryWeights]
  have h4 : packFrames (sineWave [[(11025:ℝ)]]
      (sampleDurationsOf [[(11025:ℝ)]] (some [2 / 44100])) [[0.000675]])
      = some [0, 2] := by
    rw [sampleDur_two_over, sineWaveC3]
    exact packFramesC3
  rw [generate_ok (by simp [listTruthy]) (by simp [listTruthy]) hcw h4,
    sampleDur_two_over]
  rfl

lemma sineWaveC9 : sineWave [[(0:ℝ), 11025]] [2] [[1]] = [0, 0] := by
  have h : sineWave [[(0:ℝ), 11025]] [2] [[1]]
      = (List.range ((2:ℤ)).toNat).map (fun x => chordSample [0, 11025] [1] x) := by
    simp [sineWave]
  rw [h, show ((2:ℤ)).toNat = 2 from rfl,
    map_range_eq_replicate_zero _ _ (chordSample_zero2 11025 1)]
  rfl

/-- Evaluation of the run with a 2-note chord but a 1-entry weight list. -/
lemma genC9eval :
    generateChordsFromFrequencies [[0, 11025]] (some [2 / 44100]) none
      (some [some [1]])
      = .ok "my_chord.wav" 1 2 sampleRate 2 [0, 0] := by
  have hcw : chordWeightsOf [[(0:ℝ), 11025]]
      (weightEntriesOf [[(0:ℝ), 11025]] (some [some [1]])) = some [[1]] := by
    simp [weightEntriesOf, listTruthy, chordWeightsOf, entryWeights]
  have h4 : packFrames (sineWave [[(0:ℝ), 11025]]
      (sampleDurationsOf [[(0:ℝ), 11025]] (some [2 / 44100])) [[1]])
      = some [0, 0] := by
    rw [sampleDur_two_over, sineWaveC9]
    simp [packFrames, packH_zero]
  rw [generate_ok (by simp [listTruthy]) (by simp [listTruthy]) hcw h4,
    sampleDur_two_over]
  rfl


/-! ### Claims C2, C3, C4, C6, C9, C10 -/

/-- C2: for well-formed inputs (each chord non-empty; each present weight
entry non-empty and of the chord's length), the weight loop succeeds, a chord
whose entry is absent gets uniform weights `1/n`, the sample buffer is the
concatenation in chord order of the per-chord sequences, and each sample is
the weighted sum `Σ w_j * sin(2π f_j x / 44100)` over the chord's notes. -/
theorem C2_sample_buffer (chords : List (List ℝ)) (durations : Option (List ℝ))
    (weights : Option (List (Option (List ℝ))))
    (hw : List.Forall₂
      (fun fs e => fs ≠ [] ∧ ∀ gw, e = some gw → gw.length = fs.length ∧ gw ≠ [])
      chords (weightEntriesOf chords weights)) :
    ∃ cw, chordWeightsOf chords (weightEntriesOf chords weights) = some cw
      ∧ cw = List.zipWith
          (fun fs e => e.getD (List.replicate fs.length ((1:ℝ) / (fs.length : ℝ))))
          chords (weightEntriesOf chords weights)
      ∧ sineWave chords (sampleDurationsOf chords durations) cw
          = List.flatten (List.zipWith (fun fw sz => specWave fw.1 fw.2 sz.toNat)
              (chords.zip cw) (sampleDurationsOf chords durations))
      ∧ ∀ (fs gw : List ℝ) (x : ℕ), chordSample fs gw x = specSample fs gw x := by
  have hw' : List.Forall₂ (fun fs e => fs ≠ [] ∧ ∀ gw, e = some gw → gw ≠ [])
      chords (weightEntriesOf chords weights) :=
    hw.imp (fun a b hab => ⟨hab.1, fun gw hgw => (hab.2 gw hgw).2⟩)
  exact ⟨_, chordWeightsOf_forall₂ hw', rfl, sineWave_eq_join _ _ _,
    chordSample_eq_specSample⟩

theorem C2_witness :
    ∃ cw, chordWeightsOf [[(0:ℝ)]] (weightEntriesOf [[(0:ℝ)]] none) = some cw
      ∧ cw = List.zipWith
          (fun fs e => e.getD (List.replicate fs.length ((1:ℝ) / (fs.length : ℝ))))
          [[(0:ℝ)]] (weightEntriesOf [[(0:ℝ)]] none)
      ∧ sineWave [[(0:ℝ)]] (sampleDurationsOf [[(0:ℝ)]] none) cw
          = List.flatten (List.zipWith (fun fw sz => specWave fw.1 fw.2 sz.toNat)
              ([[(0:ℝ)]].zip cw) (sampleDurationsOf [[(0:ℝ)]] none))
      ∧ ∀ (fs gw : List ℝ) (x : ℕ), chordSample fs gw x = specSample fs gw x :=
  C2_sample_buffer [[0]] none none (by
    rw [show weightEntriesOf [[(0:ℝ)]] none = [none] from rfl]
    exact List.Forall₂.cons ⟨by simp, fun gw h => by simp at h⟩ List.Forall₂.nil)

/-- C3 fails as stated: quantization is `int()` truncation toward zero, not
rounding.  On the run evaluated by `genC3eval` the second raw sample is
`0.000675 · sin(π/2)`, whose scaled value is 2.7: the file receives the frame
2, but `round(2.7) = 3`. -/
theorem C3_counterexample :
    generateChordsFromFrequencies [[11025]] (some [2 / 44100]) none
        (some [some [0.000675]])
      = .ok "my_chord.wav" 1 2 sampleRate 2 [0, 2]
    ∧ sineWave [[(11025:ℝ)]] (sampleDurationsOf [[(11025:ℝ)]] (some [2 / 44100]))
        [[0.000675]] = [0, chordSample [11025] [0.000675] 1]
    ∧ round (chordSample [(11025:ℝ)] [0.000675] 1 * amplitude / 2) = 3
    ∧ (2:ℤ) ≠ 3 := by
  refine ⟨genC3eval, ?_, ?_, by decide⟩
  · rw [sampleDur_two_over, sineWaveC3, chordSampleC3_1]
  · rw [chordSampleC3_1]
    rw [show (0.000675:ℝ) * amplitude / 2 = 2.7 by norm_num [amplitude]]
    rw [round_eq]
    rw [show (2.7:ℝ) + 1 / 2 = 3.2 by norm_num]
    exact Int.floor_eq_iff.mpr (by norm_num)

/-- C3 (amended): every successful run emits, for each sample value `v` of the
computed buffer, the signed 16-bit integer `trunc(v × 8000 / 2)` (truncation
toward zero, NOT rounding — forced by the counterexample); the code applies no
clipping, and a scaled value whose truncation falls outside the signed 16-bit
range makes the pack step fail instead of being emitted, so all frames of a
successful run lie in range. -/
theorem C3_quantization_truncates (chords : List (List ℝ)) (d : Option (List ℝ))
    (f : Option String) (w : Option (List (Option (List ℝ))))
    (fn : String) (c sw : ℕ) (r : ℝ) (nf : ℤ) (frames : List ℤ)
    (h : generateChordsFromFrequencies chords d f w = .ok fn c sw r nf frames) :
    ∃ cw, chordWeightsOf chords (weightEntriesOf chords w) = some cw
      ∧ frames = (sineWave chords (sampleDurationsOf chords d) cw).map
          (fun v => truncInt (v * amplitude / 2))
      ∧ ∀ k ∈ frames, -32768 ≤ k ∧ k ≤ 32767 := by
  unfold generateChordsFromFrequencies at h
  split at h
  · exact absurd h (by simp)
  · split at h
    · exact absurd h (by simp)
    · split at h
      · exact absurd h (by simp)
      · rename_i cw hcw
        split at h
        · exact absurd h (by simp)
        · rename_i fr hpf
          have hfr : fr = frames := by
            have hh := h
            simp only [GenResult.ok.injEq] at hh
            exact hh.2.2.2.2.2
          subst hfr
          obtain ⟨hmap, hrange⟩ := packFrames_sound hpf
          exact ⟨cw, hcw, hmap, hrange⟩

theorem C3_witness :
    ∃ cw, chordWeightsOf [[(11025:ℝ)]]
        (weightEntriesOf [[(11025:ℝ)]] (some [some [0.000675]])) = some cw
      ∧ [0, 2] = (sineWave [[(11025:ℝ)]]
          (sampleDurationsOf [[(11025:ℝ)]] (some [2 / 44100])) cw).map
          (fun v => truncInt (v * amplitude / 2))
      ∧ ∀ k ∈ ([0, 2] : List ℤ), -32768 ≤ k ∧ k ≤ 32767 :=
  C3_quantization_truncates [[11025]] (some [2 / 44100]) none (some [some [0.000675]])
    "my_chord.wav" 1 2 sampleRate 2 [0, 2] genC3eval

/-- C4 fails as stated: an explicitly provided but EMPTY `durations` list is
falsy in Python, so the length check is skipped even though its length (0)
differs from the chord count (1); the call completes and writes a file with
default 1-second durations instead of raising `LengthMismatch`. -/
theorem C4_counterexample :
    ([] : List ℝ).length ≠ ([[(0:ℝ)]]).length
    ∧ generateChordsFromFrequencies [[0]] (some []) none none
      = .ok "my_chord.wav" 1 2 sampleRate 44100 (List.replicate 44100 0) :=
  ⟨by simp, genC4eval⟩

/-- C4 (amended): a provided NON-EMPTY `durations` whose length differs from
the chord count raises `LengthMismatch` before any synthesis or file output
(the error is raised in the validation block, before `wave.open`); likewise a
provided non-empty `weights` with mismatched outer length (when the durations
check passes).  A provided empty list is falsy and is treated as an omitted
argument — forced by the counterexample. -/
theorem C4_length_mismatch :
    (∀ (chords : List (List ℝ)) (ds : List ℝ) (f : Option String)
        (w : Option (List (Option (List ℝ)))),
        ds ≠ [] → ds.length ≠ chords.length →
        generateChordsFromFrequencies chords (some ds) f w
          = .error .durLengthMismatch)
    ∧ (∀ (chords : List (List ℝ)) (d : Option (List ℝ)) (f : Option String)
        (wl : List (Option (List ℝ))),
        (listTruthy d = false ∨ (d.getD []).length = chords.length) →
        wl ≠ [] → wl.length ≠ chords.length →
        generateChordsFromFrequencies chords d f (some wl)
          = .error .wtLengthMismatch) := by
  constructor
  · intro chords ds f w hne hlen
    have hie : ds.isEmpty = false := by simpa [List.isEmpty_iff] using hne
    unfold generateChordsFromFrequencies
    rw [if_pos (by simp [listTruthy, hie, hlen])]
  · intro chords d f wl hd hne hlen
    have hie : wl.isEmpty = false := by simpa [List.isEmpty_iff] using hne
    have h1 : (listTruthy d && ((d.getD []).length != chords.length)) = false := by
      rcases hd with hd | hd
      · simp [hd]
      · simp [hd]
    unfold generateChordsFromFrequencies
    rw [if_neg (by simp [h1]), if_pos (by simp [listTruthy, hie, hlen])]

theorem C4_witness :
    generateChordsFromFrequencies [[(0:ℝ)]] (some [1, 1]) none none
      = .error .durLengthMismatch :=
  C4_length_mismatch.1 [[0]] [1, 1] none none (by simp) (by simp)

/-- C6: on every successful call the header declares 1 channel, 2-byte
samples, rate 44100, and a frame count equal to the sum of the per-chord
sample counts, each of which is the truncation toward zero of
`44100 × duration_i`; with `durations` omitted every duration defaults to 1;
the concrete two-chord run with durations `[1, 2]` declares
`44100 + 88200 = 132300` frames. -/
theorem C6_frame_count_and_header :
    (∀ (chords : List (List ℝ)) (d : Option (List ℝ)) (f : Option String)
        (w : Option (List (Option (List ℝ))))
        (fn : String) (c sw : ℕ) (r : ℝ) (nf : ℤ) (frames : List ℤ),
        generateChordsFromFrequencies chords d f w = .ok fn c sw r nf frames →
        c = 1 ∧ sw = 2 ∧ r = 44100
          ∧ nf = (sampleDurationsOf chords d).sum
          ∧ sampleDurationsOf chords d
              = (secDurationsOf chords d).map (fun du => truncInt (44100 * du)))
    ∧ (∀ chords : List (List ℝ),
        secDurationsOf chords none = List.replicate chords.length 1)
    ∧ generateChordsFromFrequencies [[0], [0]] (some [1, 2]) none none
        = .ok "my_chord.wav" 1 2 sampleRate 132300 (List.replicate 132300 0) := by
  refine ⟨?_, ?_, genC6eval⟩
  · intro chords d f w fn c sw r nf frames h
    unfold generateChordsFromFrequencies at h
    split at h
    · exact absurd h (by simp)
    · split at h
      · exact absurd h (by simp)
      · split at h
        · exact absurd h (by simp)
        · rename_i cw hcw
          split at h
          · exact absurd h (by simp)
          · rename_i fr hpf
            simp only [GenResult.ok.injEq] at h
            exact ⟨h.2.1.symm, h.2.2.1.symm, h.2.2.2.1.symm, h.2.2.2.2.1.symm, rfl⟩
  · intro chords
    rfl

theorem C6_witness :
    (1 : ℕ) = 1 ∧ (2 : ℕ) = 2 ∧ sampleRate = 44100
      ∧ (132300 : ℤ) = (sampleDurationsOf [[(0:ℝ)], [0]] (some [1, 2])).sum
      ∧ sampleDurationsOf [[(0:ℝ)], [0]] (some [1, 2])
          = (secDurationsOf [[(0:ℝ)], [0]] (some [1, 2])).map
              (fun du => truncInt (44100 * du)) :=
  C6_frame_count_and_header.1 [[0], [0]] (some [1, 2]) none none
    "my_chord.wav" 1 2 sampleRate 132300 (List.replicate 132300 0) genC6eval

/-- C9: the length of an inner weight list is never validated — with the outer
lengths consistent the call raises no `LengthMismatch` whatever the inner
lengths are; each sample sums over `zip(freqs, weighting)`, i.e. over exactly
the first `min(#notes, #weights)` note/weight pairs, silently ignoring the
excess; concretely, a 2-note chord with a 1-entry weight list succeeds and its
second note never contributes (both samples are 0 although the ignored note
11025 Hz would contribute `sin(π/2) = 1` at sample 1). -/
theorem C9_inner_weights_unchecked :
    (∀ (chords : List (List ℝ)) (wl : List (Option (List ℝ)))
        (d : Option (List ℝ)) (f : Option String),
        wl.length = chords.length →
        (listTruthy d = false ∨ (d.getD []).length = chords.length) →
        generateChordsFromFrequencies chords d f (some wl)
            ≠ .error .durLengthMismatch
        ∧ generateChordsFromFrequencies chords d f (some wl)
            ≠ .error .wtLengthMismatch)
    ∧ (∀ (fs gw : List ℝ) (x : ℕ),
        chordSample fs gw x = specSample fs gw x
        ∧ (fs.zip gw).length = min fs.length gw.length)
    ∧ generateChordsFromFrequencies [[0, 11025]] (some [2 / 44100]) none
        (some [some [1]])
        = .ok "my_chord.wav" 1 2 sampleRate 2 [0, 0] := by
  refine ⟨?_, fun fs gw x => ⟨chordSample_eq_specSample fs gw x, List.length_zip fs gw⟩,
    genC9eval⟩
  intro chords wl d f hlen hd
  have h1 : (listTruthy d && ((d.getD []).length != chords.length)) = false := by
    rcases hd with hd | hd
    · simp [hd]
    · simp [hd]
  have h2 : (listTruthy (some wl)
      && (((some wl : Option (List (Option (List ℝ)))).getD []).length
          != chords.length)) = false := by
    simp [listTruthy, hlen]
  constructor
  · unfold generateChordsFromFrequencies
    simp only [h1, h2, Bool.false_eq_true, if_false]
    cases hcw : chordWeightsOf chords (weightEntriesOf chords (some wl)) with
    | none => simp
    | some cw =>
      cases hpf : packFrames (sineWave chords (sampleDurationsOf chords d) cw) with
      | none => simp [hpf]
      | some fr => simp [hpf]
  · unfold generateChordsFromFrequencies
    simp only [h1, h2, Bool.false_eq_true, if_false]
    cases hcw : chordWeightsOf chords (weightEntriesOf chords (some wl)) with
    | none => simp
    | some cw =>
      cases hpf : packFrames (sineWave chords (sampleDurationsOf chords d) cw) with
      | none => simp [hpf]
      | some fr => simp [hpf]

theorem C9_witness :
    generateChordsFromFrequencies [[(0:ℝ)]] none none (some [some [1]])
        ≠ .error .durLengthMismatch
    ∧ generateChordsFromFrequencies [[(0:ℝ)]] none none (some [some [1]])
        ≠ .error .wtLengthMismatch :=
  (C9_inner_weights_unchecked.1 [[0]] [some [1]] none none (by simp) (Or.inl rfl))

/-- C10: with an empty chord sequence (and the optional arguments absent or
empty, hence falsy) no error is raised: the call completes normally and writes
a file whose header declares 0 frames, with no sample data. -/
theorem C10_empty_chords (d : Option (List ℝ)) (f : Option String)
    (w : Option (List (Option (List ℝ))))
    (hd : listTruthy d = false) (hw : listTruthy w = false) :
    generateChordsFromFrequencies [] d f w
      = .ok (pyFilename f) 1 2 sampleRate 0 [] := by
  have hsd : sampleDurationsOf [] d = [] := by
    simp [sampleDurationsOf, secDurationsOf, hd]
  have hcw : chordWeightsOf [] (weightEntriesOf [] w) = some [] := by
    cases weightEntriesOf [] w <;> rfl
  have h4 : packFrames (sineWave [] (sampleDurationsOf [] d) []) = some [] := by
    rw [hsd]
    rfl
  rw [generate_ok (by simp [hd]) (by simp [hw]) hcw h4, hsd]
  rfl

theorem C10_witness :
    generateChordsFromFrequencies [] none none none
      = .ok (pyFilename none) 1 2 sampleRate 0 [] :=
  C10_empty_chords none none none rfl rfl


end ChordGen
